import Mathlib

set_option maxHeartbeats 1000000

namespace ToyMine

/-!  Shallow embedding of the ToyMine process-supervision core:
  - src/command/mod.rs   (CommandLoader, plugin chain, relay pipeline)
  - src/core/mc_server/runner.rs  (Runner lifecycle, stdio bridge, exit guard)
  - src/core/task.rs     (TaskManager coordinator loop)
  - src/core/hooks/hooked_channel.rs (HookedSender / HookedReceiver)
-/

/-! ## Command pipeline (src/command/mod.rs) -/

/-- A command plugin (trait CommandPlugin): `process(value, sender)` returns the
transformed line; the lines it pushes onto the runner input channel through
`sender` are returned alongside as the side-effect component. -/
structure CommandPlugin where
  process : String → String × List String

/-- A plugin that appends a fixed suffix to the line and sends nothing. -/
def pluginAppend (s : String) : CommandPlugin :=
  ⟨fun v => (v ++ s, [])⟩

/-- A plugin that appends an exclamation mark and pushes one line "ping" onto the
runner input channel each time it runs. -/
def pluginPing : CommandPlugin :=
  ⟨fun v => (v ++ "!", ["ping"])⟩

/-- The fold of `pipeline` (command/mod.rs lines 99-103):
`stream::iter(plugins.iter()).fold(value, |v, x| x.process(v, input.clone()))`.
The value is threaded left-to-right; lines sent to the runner input accumulate in order. -/
def foldPlugins (ps : List CommandPlugin) (v : String) : String × List String :=
  ps.foldl (fun acc p =>
    let r := p.process acc.1
    (r.1, acc.2 ++ r.2)) (v, [])

/-- Value component of the plugin fold. -/
def foldValue (ps : List CommandPlugin) (v : String) : String :=
  (foldPlugins ps v).1

/-- Input-channel side effects of the plugin fold. -/
def foldSends (ps : List CommandPlugin) (v : String) : List String :=
  (foldPlugins ps v).2

/-- Capacity of the relay's own channel: `channel::<String>(32)` (line 66). -/
def pipelineCap : Nat := 32

/-- The try_send retry loop of `pipeline` (command/mod.rs lines 97-119), for one line
received from the runner output.  `q` is the buffer of the relay's own channel
(`tx`/`rx` pair), `v` the current value, `sent` the input-channel sends so far.
Each iteration evaluates the whole plugin fold on `v` (side effects included) and
calls `try_send`; on `Full(v)` the loop pops one stale entry from `rx` with
`try_recv` and retries with the value `try_send` handed back — which is already
the folded result.  `fuel` bounds the iterations of the Rust `loop`. -/
def relayAttempt (ps : List CommandPlugin) :
    Nat → String → List String → List String → Option (List String × List String)
  | 0, _, _, _ => none
  | fuel + 1, v, q, sent =>
    if q.length < pipelineCap then
      some (q ++ [foldValue ps v], sent ++ foldSends ps v)
    else
      relayAttempt ps fuel (foldValue ps v) (List.drop 1 q) (sent ++ foldSends ps v)

/-- One pass of `pipeline` for one received line, with enough fuel for the retry
loop to run to completion. -/
def relayStep (ps : List CommandPlugin) (q : List String) (v : String) :
    Option (List String × List String) :=
  relayAttempt ps (q.length + 2) v q []

/-- The relay task across a whole sequence of lines received from the runner
output channel, tracking the buffer of the relay's own channel while the
consumer stalls (nothing is read from `rx` except the stale pops). -/
def produceRelay (ps : List CommandPlugin) : List String → List String → Option (List String)
  | [], q => some q
  | x :: rest, q =>
    match relayStep ps q x with
    | none => none
    | some (q1, _) => produceRelay ps rest q1

/-- Lookup in the `plugins: HashMap<usize, ArcSwap<Vec<Box<dyn CommandPlugin>>>>`
table, modelled as an association list keyed by runner id. -/
def chainsGet (m : List (Nat × List CommandPlugin)) (id : Nat) :
    Option (List CommandPlugin) :=
  match m with
  | [] => none
  | (k, v) :: rest => if k = id then some v else chainsGet rest id

/-- `v.store(Arc::new(plugins))`: replace the chain bound to `id`. -/
def chainsStore (m : List (Nat × List CommandPlugin)) (id : Nat)
    (ps : List CommandPlugin) : List (Nat × List CommandPlugin) :=
  match m with
  | [] => []
  | (k, v) :: rest =>
    if k = id then (k, ps) :: rest else (k, v) :: chainsStore rest id ps

/-- CommandLoader state: the per-runner-id plugin table. -/
structure CommandLoader where
  plugins : List (Nat × List CommandPlugin)

/-- `CommandLoader::new()`. -/
def CommandLoader.new : CommandLoader := ⟨[]⟩

/-- `CommandLoader::register` (command/mod.rs lines 37-59).  If the id is bound,
store the new chain into its ArcSwap and return Ok; otherwise insert a fresh
binding — the Err branch fires only if `insert` reports a value already present,
which the preceding `get` just ruled out. -/
def CommandLoader.register (l : CommandLoader) (id : Nat)
    (ps : List CommandPlugin) : Except String CommandLoader :=
  match chainsGet l.plugins id with
  | some _ => Except.ok ⟨chainsStore l.plugins id ps⟩
  | none =>
    if (chainsGet l.plugins id).isNone then
      Except.ok ⟨l.plugins ++ [(id, ps)]⟩
    else
      Except.error "Failed to register command plugin"

/-- The relay task spawned by `load`: it owns the chain snapshot captured by the
single `ArcSwap::load()` performed in `CommandLoader::load` (lines 73-83) before
the task is spawned. -/
structure Relay where
  snapshot : List CommandPlugin

/-- `CommandLoader::load` (lines 61-137), restricted to its plugin-table effect:
read the chain bound to the runner id (inserting an empty chain if absent) and
hand exactly that snapshot to the spawned relay task. -/
def CommandLoader.load (l : CommandLoader) (id : Nat) : CommandLoader × Relay :=
  match chainsGet l.plugins id with
  | none => (⟨l.plugins ++ [(id, [])]⟩, ⟨[]⟩)
  | some ps => (l, ⟨ps⟩)

/-- What the running relay does to one received line: fold it through the
snapshot captured at load time (the `plugins.clone()` passed to `pipeline`). -/
def Relay.processLine (r : Relay) (v : String) : String :=
  foldValue r.snapshot v

/-! ### Lemmas about the plugin table -/

lemma chainsGet_append_of_none (m : List (Nat × List CommandPlugin)) (id : Nat)
    (ps : List CommandPlugin) (h : chainsGet m id = none) :
    chainsGet (m ++ [(id, ps)]) id = some ps := by
  induction m with
  | nil => simp [chainsGet]
  | cons hd tl ih =>
    obtain ⟨k, v⟩ := hd
    by_cases hk : k = id
    · exfalso
      rw [chainsGet, if_pos hk] at h
      exact Option.noConfusion h
    · rw [chainsGet, if_neg hk] at h
      rw [List.cons_append, chainsGet, if_neg hk]
      exact ih h

lemma chainsGet_store_of_some (m : List (Nat × List CommandPlugin)) (id : Nat)
    (ps c : List CommandPlugin) (h : chainsGet m id = some c) :
    chainsGet (chainsStore m id ps) id = some ps := by
  induction m with
  | nil => simp [chainsGet] at h
  | cons hd tl ih =>
    obtain ⟨k, v⟩ := hd
    by_cases hk : k = id
    · rw [chainsStore, if_pos hk, chainsGet, if_pos hk]
    · rw [chainsGet, if_neg hk] at h
      rw [chainsStore, if_neg hk, chainsGet, if_neg hk]
      exact ih h

/-! ### Lemmas about the relay retry loop -/

lemma relayStep_nil_of_lt (q : List String) (v : String)
    (h : q.length < pipelineCap) : relayStep [] q v = some (q ++ [v], []) := by
  show relayAttempt [] (q.length + 1 + 1) v q [] = _
  rw [relayAttempt, if_pos h]
  rfl

lemma relayStep_nil_of_full (q : List String) (v : String)
    (h : q.length = pipelineCap) :
    relayStep [] q v = some (q.drop 1 ++ [v], []) := by
  show relayAttempt [] (q.length + 1 + 1) v q [] = _
  rw [relayAttempt, if_neg (by omega)]
  have hd : (List.drop 1 q).length < pipelineCap := by
    rw [List.length_drop]
    have : 0 < pipelineCap := by norm_num [pipelineCap]
    omega
  rw [relayAttempt, if_pos hd]
  rfl

lemma sends_range_succ (f : String → String) (g : String → List String)
    (v : String) (n : Nat) :
    ((List.range (n + 1 + 1)).map (fun i => g (f^[i] v))).flatten =
      g v ++ ((List.range (n + 1)).map (fun i => g (f^[i] (f v)))).flatten := by
  rw [List.range_succ_eq_map, List.map_cons, List.flatten_cons]
  simp only [Function.iterate_zero_apply]
  congr 2
  rw [List.map_map]
  apply List.map_congr_left
  intro i _
  simp [Function.comp, Function.iterate_succ_apply]

/-- Closed form of the full retry loop: on success after `n` retries the enqueued
entry is the plugin fold applied `n + 1` times to the original value, `n` stale
entries were popped, and the plugin side effects ran once per fold evaluation. -/
lemma relayAttempt_spec (ps : List CommandPlugin) :
    ∀ (fuel : Nat) (v : String) (q sent0 qf sent : List String),
      relayAttempt ps fuel v q sent0 = some (qf, sent) →
      ∃ n : Nat, n < fuel ∧
        qf = q.drop n ++ [(foldValue ps)^[n + 1] v] ∧
        sent = sent0 ++
          ((List.range (n + 1)).map (fun i => foldSends ps ((foldValue ps)^[i] v))).flatten ∧
        (pipelineCap ≤ q.length → 1 ≤ n) := by
  intro fuel
  induction fuel with
  | zero =>
    intro v q sent0 qf sent h
    exact absurd h (by rw [relayAttempt]; exact fun hc => Option.noConfusion hc)
  | succ fuel ih =>
    intro v q sent0 qf sent h
    rw [relayAttempt] at h
    by_cases hq : q.length < pipelineCap
    · rw [if_pos hq] at h
      have h' := Option.some.inj h
      have h1 : q ++ [foldValue ps v] = qf := congrArg Prod.fst h'
      have h2 : sent0 ++ foldSends ps v = sent := congrArg Prod.snd h'
      refine ⟨0, by omega, ?_, ?_, by omega⟩
      · rw [← h1]
        simp
      · rw [← h2]
        have hr : List.range 1 = [0] := rfl
        rw [hr]
        simp
    · rw [if_neg hq] at h
      obtain ⟨n, hn, hqf, hsent, _⟩ := ih _ _ _ _ _ h
      refine ⟨n + 1, by omega, ?_, ?_, by omega⟩
      · rw [hqf, List.drop_drop, ← Function.iterate_succ_apply]
        congr 2
        omega
      · rw [hsent, sends_range_succ (foldValue ps) (foldSends ps) v n,
          List.append_assoc]

/-- Closed form of the whole relay across a line sequence for the empty chain:
the buffer ends holding the most recent `pipelineCap` lines. -/
lemma produceRelay_nil_chain :
    ∀ (xs q : List String), q.length ≤ pipelineCap →
      produceRelay [] xs q =
        some ((q ++ xs).drop (q.length + xs.length - pipelineCap)) := by
  intro xs
  induction xs with
  | nil =>
    intro q hq
    rw [produceRelay]
    have h0 : q.length + ([] : List String).length - pipelineCap = 0 := by
      simp only [List.length_nil]
      omega
    rw [h0, List.drop_zero, List.append_nil]
  | cons x rest ih =>
    intro q hq
    rcases Nat.lt_or_ge q.length pipelineCap with hlt | hge
    · rw [produceRelay, relayStep_nil_of_lt q x hlt]
      show produceRelay [] rest (q ++ [x]) = _
      have hlen : (q ++ [x]).length ≤ pipelineCap := by
        rw [List.length_append, List.length_singleton]
        omega
      rw [ih (q ++ [x]) hlen]
      have e1 : (q ++ [x]).length + rest.length - pipelineCap
          = q.length + (x :: rest).length - pipelineCap := by
        rw [List.length_append, List.length_singleton, List.length_cons]
        omega
      rw [e1, List.append_assoc, List.singleton_append]
    · have heq : q.length = pipelineCap := Nat.le_antisymm hq hge
      rw [produceRelay, relayStep_nil_of_full q x heq]
      show produceRelay [] rest (List.drop 1 q ++ [x]) = _
      have hlen : (List.drop 1 q ++ [x]).length ≤ pipelineCap := by
        rw [List.length_append, List.length_drop, List.length_singleton]
        have hcap : pipelineCap = 32 := rfl
        omega
      rw [ih _ hlen]
      cases q with
      | nil =>
        exfalso
        simp only [List.length_nil] at heq
        exact absurd heq (by decide)
      | cons a q1 =>
        simp only [List.length_cons] at heq
        have hd1 : List.drop 1 (a :: q1) = q1 := rfl
        rw [hd1]
        have e1 : (q1 ++ [x]).length + rest.length - pipelineCap
            = rest.length := by
          rw [List.length_append, List.length_singleton]
          omega
        have e2 : (a :: q1).length + (x :: rest).length - pipelineCap
            = rest.length + 1 := by
          rw [List.length_cons, List.length_cons]
          omega
        rw [e1, e2, List.cons_append, List.drop_succ_cons, List.append_assoc,
          List.singleton_append]

/-! ## Claim theorems for the command pipeline -/

/-- C1: the claim says every line received after `register()` replaces the chain
is folded through the newly registered chain.  The code disagrees: `load()`
performs the only `ArcSwap::load()` and the spawned relay keeps that snapshot
forever, so after registering [A], loading, then registering [C], the relay
still turns "x" into "xA" while the loader's stored chain would give "xC". -/
theorem relay_ignores_later_register :
    ∃ (l1 l2 : CommandLoader) (r : Relay),
      CommandLoader.register CommandLoader.new 1 [pluginAppend "A"] = Except.ok l1 ∧
      CommandLoader.load l1 1 = (l1, r) ∧
      CommandLoader.register l1 1 [pluginAppend "C"] = Except.ok l2 ∧
      Relay.processLine r "x" = "xA" ∧
      (chainsGet l2.plugins 1).map (fun ps => foldValue ps "x") = some "xC" ∧
      "xA" ≠ "xC" :=
  ⟨⟨[(1, [pluginAppend "A"])]⟩, ⟨[(1, [pluginAppend "C"])]⟩, ⟨[pluginAppend "A"]⟩,
    rfl, rfl, rfl, rfl, rfl, by decide⟩

/-- C2: with the chain `load()` installs when none was registered, a stalled
consumer and pipelineCap + k produced lines leave the relay channel holding
exactly the last pipelineCap lines; the next read is never one of the first k
lines, and on a full channel the relay pops exactly one stale entry from its
own channel (a non-blocking try_recv) and retries. -/
theorem pipeline_drop_oldest (k : Nat) (xs : List String)
    (hk : 0 < k) (hlen : xs.length = pipelineCap + k) (hnd : xs.Nodup) :
    produceRelay [] xs [] = some (xs.drop k) ∧
    (xs.drop k).length = pipelineCap ∧
    (∀ y ∈ xs.drop k, y ∉ xs.take k) ∧
    (∀ (q : List String) (v : String), q.length = pipelineCap →
      relayStep [] q v = some (q.drop 1 ++ [v], [])) := by
  refine ⟨?_, ?_, ?_, fun q v hq => relayStep_nil_of_full q v hq⟩
  · have h := produceRelay_nil_chain xs [] (by simp [pipelineCap])
    rw [List.nil_append, List.length_nil, Nat.zero_add, hlen,
      Nat.add_sub_cancel_left] at h
    exact h
  · rw [List.length_drop, hlen]
    omega
  · intro y hy hy'
    have hsplit : xs.take k ++ xs.drop k = xs := List.take_append_drop k xs
    have hnd2 : (xs.take k ++ xs.drop k).Nodup := by rw [hsplit]; exact hnd
    exact (List.nodup_append.mp hnd2).2.2 hy' hy

/-- Witness for C2 at 33 pairwise distinct lines with k = 1. -/
theorem pipeline_drop_oldest_witness :
    produceRelay [] ((List.range 33).map toString) [] =
      some (((List.range 33).map toString).drop 1) :=
  (pipeline_drop_oldest 1 ((List.range 33).map toString)
    (by decide) (by decide) (by decide)).1

/-- C6: plugins run in registration order as a left fold — for a chain [A, B]
the relayed result is B.process applied to A.process applied to the line, the
input-channel side effects of A come before those of B, and with room in the
channel that is exactly what one relay pass enqueues. -/
theorem plugins_fold_in_order (A B : CommandPlugin) (x : String) (q : List String) :
    foldValue [A, B] x = (B.process (A.process x).1).1 ∧
    foldSends [A, B] x = (A.process x).2 ++ (B.process (A.process x).1).2 ∧
    (q.length < pipelineCap →
      relayStep [A, B] q x =
        some (q ++ [(B.process (A.process x).1).1],
          (A.process x).2 ++ (B.process (A.process x).1).2)) := by
  refine ⟨rfl, rfl, fun h => ?_⟩
  show relayAttempt [A, B] (q.length + 1 + 1) x q [] = _
  rw [relayAttempt, if_pos h]
  rfl

/-- Witness for C6: [append "A", append "B"] turns "x" into "xA" then "xAB". -/
theorem plugins_fold_in_order_witness :
    relayStep [pluginAppend "A", pluginAppend "B"] [] "x" = some (["xAB"], []) :=
  ((plugins_fold_in_order (pluginAppend "A") (pluginAppend "B") "x" []).2.2
    (by decide)).trans (by decide)

/-- C7: the retry loop re-evaluates the whole plugin fold on the value returned
by the failed try_send, so after n full-channel retries the enqueued line is
the chain applied n + 1 times to the original line and the plugin side effects
ran once per fold evaluation; concretely, one full channel makes a plugin
send "ping" twice for a single source line. -/
theorem relay_refold_on_full :
    (∀ (ps : List CommandPlugin) (fuel : Nat) (v : String) (q qf sent : List String),
      relayAttempt ps fuel v q [] = some (qf, sent) →
      ∃ n : Nat, n < fuel ∧
        qf = q.drop n ++ [(foldValue ps)^[n + 1] v] ∧
        sent = ((List.range (n + 1)).map
          (fun i => foldSends ps ((foldValue ps)^[i] v))).flatten ∧
        (pipelineCap ≤ q.length → 1 ≤ n)) ∧
    relayStep [pluginPing] (List.replicate pipelineCap "z") "x" =
      some (List.replicate (pipelineCap - 1) "z" ++ ["x!!"], ["ping", "ping"]) := by
  constructor
  · intro ps fuel v q qf sent h
    obtain ⟨n, h1, h2, h3, h4⟩ := relayAttempt_spec ps fuel v q [] qf sent h
    exact ⟨n, h1, h2, by simpa using h3, h4⟩
  · decide

/-- Witness for C7: a concrete full-channel run reached through the theorem. -/
theorem relay_refold_on_full_witness :
    ∃ n : Nat, n < 34 ∧
      (List.replicate (pipelineCap - 1) "z" ++ ["x!!"] : List String) =
        (List.replicate pipelineCap "z").drop n ++
          [(foldValue [pluginPing])^[n + 1] "x"] ∧
      (["ping", "ping"] : List String) =
        ((List.range (n + 1)).map
          (fun i => foldSends [pluginPing] ((foldValue [pluginPing])^[i] "x"))).flatten ∧
      (pipelineCap ≤ (List.replicate pipelineCap "z").length → 1 ≤ n) :=
  relay_refold_on_full.1 [pluginPing] 34 "x" (List.replicate pipelineCap "z")
    (List.replicate (pipelineCap - 1) "z" ++ ["x!!"]) ["ping", "ping"] (by decide)

/-- C8: the claim says registering for an already-registered runner id fails
with a setup error.  The code disagrees: the Some branch of `register` stores
the new chain into the ArcSwap and returns Ok. -/
theorem duplicate_register_returns_ok :
    ∃ l1 l2 : CommandLoader,
      CommandLoader.register CommandLoader.new 7 [pluginAppend "A"] = Except.ok l1 ∧
      CommandLoader.register l1 7 [pluginAppend "C"] = Except.ok l2 ∧
      chainsGet l2.plugins 7 = some [pluginAppend "C"] :=
  ⟨⟨[(7, [pluginAppend "A"])]⟩, ⟨[(7, [pluginAppend "C"])]⟩, rfl, rfl, rfl⟩

/-- C8 amended: register never fails — it replaces the chain when the id is
bound and inserts it otherwise, and afterwards the id is bound to the new chain. -/
theorem register_replaces_or_inserts (l : CommandLoader) (id : Nat)
    (ps : List CommandPlugin) :
    ∃ l2 : CommandLoader, CommandLoader.register l id ps = Except.ok l2 ∧
      chainsGet l2.plugins id = some ps := by
  unfold CommandLoader.register
  rcases h : chainsGet l.plugins id with _ | c
  · exact ⟨_, rfl, chainsGet_append_of_none l.plugins id ps h⟩
  · exact ⟨_, rfl, chainsGet_store_of_some l.plugins id ps c h⟩

/-! ## Runner (src/core/mc_server/runner.rs) -/

/-- The stdin-writer body `recv_input` (runner.rs lines 51-59): the bytes written
to the child's stdin for one line received from the input channel are exactly
`line.as_bytes()` — nothing is appended. -/
def recv_input (line : String) : String := line

/-- The console pump `pump_stdin` of `sync_channel_stdio` (lines 188-200): each
line read from the terminal is sent into the input channel as `line.add("\n")`. -/
def pump_stdin_send (line : String) : String := line ++ "\n"

/-- Drop one leading occurrence of `c` from a character list. -/
def dropLeading (c : Char) (l : List Char) : List Char :=
  match l with
  | [] => []
  | x :: rest => if x = c then rest else x :: rest

/-- Drop one trailing occurrence of `c` from a character list. -/
def dropTrailing (c : Char) (l : List Char) : List Char :=
  (dropLeading c l.reverse).reverse

/-- What `BufReader::lines().next_line()` (line 63) delivers for one raw
terminated chunk read from the child's stdout: the chunk with its trailing LF
stripped, then a trailing CR stripped. -/
def next_line_strip (raw : List Char) : List Char :=
  dropTrailing '\r' (dropTrailing '\n' raw)

/-- Whether the child process has already exited `now` milliseconds after the
stop request (`tExit = none`: the child ignores "stop" and never exits on its
own). -/
def childExitedAt (tExit : Option Nat) (now : Nat) : Bool :=
  match tExit with
  | none => false
  | some t => decide (t ≤ now)

/-- The graceful-wait loop of `stop` (lines 89-98): poll `try_wait`, sleep
200 ms, repeat, all under `timeout(T)`.  `now` is the elapsed time of the
current poll; once `now` passes `T` the timeout wins the race.  `fuel` bounds
the polls. -/
def gracefulPoll (tExit : Option Nat) (T : Nat) : Nat → Nat → Bool
  | 0, _ => false
  | fuel + 1, now =>
    if T < now then false
    else if childExitedAt tExit now then true
    else gracefulPoll tExit T fuel (now + 200)

/-- Result of the `stop` helper (lines 85-103). -/
structure StopOutcome where
  inputSends : List String
  graceful : Bool
  killed : Bool

/-- `stop` (lines 85-103): send the literal line "stop\n" into the input
channel, give the child `T` milliseconds of 200 ms-cadence polling to exit
gracefully, and call `start_kill` only if that deadline elapses. -/
def stopRun (tExit : Option Nat) (T : Nat) : StopOutcome :=
  let g := gracefulPoll tExit T (T / 200 + 1) 0
  ⟨["stop\n"], g, !g⟩

/-- One run of the exit-guard task (lines 139-149): select the stop branch (a
stop request carrying timeout `T` arrived) or the watch branch (the child
exited on its own); either way, `child.wait()` retrieves `status` and
`exit_tx.send(status)` resolves the one-shot exit signal — once. -/
structure GuardRun where
  inputSends : List String
  killed : Bool
  exitSends : List Int

def exitGuard (stopReq : Option Nat) (tExit : Option Nat) (status : Int) : GuardRun :=
  match stopReq with
  | some T =>
    let s := stopRun tExit T
    ⟨s.inputSends, s.killed, [status]⟩
  | none => ⟨[], false, [status]⟩

/-- The stop-request state of a Runner:
`stopSlot` models `stop: Mutex<Option<oneshot::Sender<Duration>>>` still being
Some; `guardWaiting` models the exit guard still selecting on `stop_rx` (the
runner is live); `stopRequest` is the duration delivered to the guard. -/
structure RunnerState where
  stopSlot : Bool
  guardWaiting : Bool
  stopRequest : Option Nat
deriving DecidableEq

/-- `Runner::kill_with_timeout` (lines 161-170): `take()` the stop sender
(consuming it even if the subsequent send fails), error if it was already
taken, error if the guard is gone, otherwise deliver the timeout. -/
def killWithTimeout (r : RunnerState) (t : Nat) : Except String Unit × RunnerState :=
  if r.stopSlot then
    if r.guardWaiting then
      (Except.ok (), { r with stopSlot := false, stopRequest := some t })
    else
      (Except.error "Failed to send stop signal", { r with stopSlot := false })
  else
    (Except.error "The stop signal is not allowed to be sent repeatedly.", r)

/-! ### Claim theorems for the Runner -/

/-- C3: on a live Runner the first kill_with_timeout succeeds and consumes the
stop sender; every later call returns the explicit already-requested error and
leaves the state untouched; and the exit guard still produces the true exit
status on the one-shot exit signal exactly once. -/
theorem kill_with_timeout_once (r : RunnerState) (t1 t2 : Nat)
    (tExit : Option Nat) (status : Int)
    (hs : r.stopSlot = true) (hg : r.guardWaiting = true) :
    (killWithTimeout r t1).1 = Except.ok () ∧
    (killWithTimeout r t1).2.stopSlot = false ∧
    (killWithTimeout r t1).2.stopRequest = some t1 ∧
    (killWithTimeout (killWithTimeout r t1).2 t2).1 =
      Except.error "The stop signal is not allowed to be sent repeatedly." ∧
    (killWithTimeout (killWithTimeout r t1).2 t2).2 = (killWithTimeout r t1).2 ∧
    (exitGuard (some t1) tExit status).exitSends = [status] := by
  simp [killWithTimeout, hs, hg, exitGuard]

/-- Witness for C3 on a concrete live runner. -/
theorem kill_with_timeout_once_witness :
    (killWithTimeout ⟨true, true, none⟩ 2000).1 = Except.ok () ∧
    (killWithTimeout (killWithTimeout ⟨true, true, none⟩ 2000).2 100).1 =
      Except.error "The stop signal is not allowed to be sent repeatedly." := by
  have h := kill_with_timeout_once ⟨true, true, none⟩ 2000 100 none 0 rfl rfl
  exact ⟨h.1, h.2.2.2.1⟩

/-- C4: the claim says the stdin-writer appends a terminator and every internal
channel carries terminator-free strings.  The code disagrees: `recv_input`
writes the line verbatim, and the exit guard sends the terminator-bearing line
"stop\012" through the input channel. -/
theorem stdin_writer_appends_nothing :
    recv_input "say hi" = "say hi" ∧
    recv_input "say hi" ≠ "say hi" ++ "\n" ∧
    (exitGuard (some 1000) none 0).inputSends = ["stop\n"] ∧
    '\n' ∈ ("stop\n").data := by
  refine ⟨rfl, by decide, rfl, by decide⟩

/-- C4 amended: terminators are handled by the producers into the input channel
and by the stdout-reader: the stdin-writer writes each line verbatim, the
console pump and the exit guard append the terminator themselves before
sending, and next_line strips the terminator so the output channel carries
terminator-free lines. -/
theorem line_terminator_boundary (line : String) (s : List Char)
    (hs : '\n' ∉ s) :
    recv_input line = line ∧
    pump_stdin_send line = line ++ "\n" ∧
    (exitGuard (some 1000) none 0).inputSends = ["stop\n"] ∧
    next_line_strip (s ++ ['\n']) = dropTrailing '\r' s ∧
    '\n' ∉ next_line_strip (s ++ ['\n']) := by
  have hlf : dropTrailing '\n' (s ++ ['\n']) = s := by
    rw [dropTrailing, List.reverse_append]
    simp [dropLeading]
  have hmemL : ∀ (c : Char) (l : List Char) (x : Char),
      x ∈ dropLeading c l → x ∈ l := by
    intro c l x hx
    cases l with
    | nil => exact hx
    | cons y rest =>
      rw [dropLeading] at hx
      by_cases hy : y = c
      · rw [if_pos hy] at hx
        exact List.mem_cons_of_mem y hx
      · rw [if_neg hy] at hx
        exact hx
  have hmem : ∀ (c : Char) (l : List Char) (x : Char),
      x ∈ dropTrailing c l → x ∈ l := by
    intro c l x hx
    rw [dropTrailing] at hx
    exact List.mem_reverse.mp (hmemL c l.reverse x (List.mem_reverse.mp hx))
  refine ⟨rfl, rfl, rfl, ?_, ?_⟩
  · rw [next_line_strip, hlf]
  · rw [next_line_strip, hlf]
    intro hc
    exact hs (hmem '\r' s '\n' hc)

/-- Witness for C4 amended on a concrete line and stdout chunk. -/
theorem line_terminator_boundary_witness :
    pump_stdin_send "say hi" = "say hi" ++ "\n" ∧
    next_line_strip ("ok".data ++ ['\n']) = dropTrailing '\r' "ok".data := by
  have h := line_terminator_boundary "say hi" "ok".data (by decide)
  exact ⟨h.2.1, h.2.2.2.1⟩

/-! ### The graceful-wait race -/

lemma gracefulPoll_iff (tExit : Option Nat) (T : Nat) :
    ∀ (fuel now : Nat),
      gracefulPoll tExit T fuel now = true ↔
      ∃ n : Nat, n < fuel ∧ now + 200 * n ≤ T ∧
        childExitedAt tExit (now + 200 * n) = true := by
  intro fuel
  induction fuel with
  | zero =>
    intro now
    rw [gracefulPoll]
    constructor
    · intro h
      exact Bool.noConfusion h
    · rintro ⟨n, hn, _, _⟩
      omega
  | succ fuel ih =>
    intro now
    rw [gracefulPoll]
    by_cases h1 : T < now
    · rw [if_pos h1]
      constructor
      · intro h
        exact Bool.noConfusion h
      · rintro ⟨n, _, hle, _⟩
        omega
    · rw [if_neg h1]
      by_cases h2 : childExitedAt tExit now = true
      · rw [if_pos h2]
        constructor
        · intro _
          refine ⟨0, by omega, by omega, ?_⟩
          have e0 : now + 200 * 0 = now := by omega
          rw [e0]
          exact h2
        · intro _
          rfl
      · rw [if_neg h2]
        rw [ih (now + 200)]
        constructor
        · rintro ⟨n, hn, hle, hex⟩
          refine ⟨n + 1, by omega, by omega, ?_⟩
          have e : now + 200 * (n + 1) = now + 200 + 200 * n := by omega
          rw [e]
          exact hex
        · rintro ⟨n, hn, hle, hex⟩
          cases n with
          | zero =>
            exfalso
            apply h2
            have e0 : now + 200 * 0 = now := by omega
            rw [e0] at hex
            exact hex
          | succ m =>
            refine ⟨m, by omega, by omega, ?_⟩
            have e : now + 200 + 200 * m = now + 200 * (m + 1) := by omega
            rw [e]
            exact hex

lemma gracefulPoll_full_iff (tExit : Option Nat) (T : Nat) :
    gracefulPoll tExit T (T / 200 + 1) 0 = true ↔
    ∃ n : Nat, 200 * n ≤ T ∧ childExitedAt tExit (200 * n) = true := by
  rw [gracefulPoll_iff]
  constructor
  · rintro ⟨n, _, hle, hex⟩
    refine ⟨n, by omega, ?_⟩
    have e : 200 * n = 0 + 200 * n := by omega
    rw [e]
    exact hex
  · rintro ⟨n, hle, hex⟩
    refine ⟨n, by omega, by omega, ?_⟩
    have e : 0 + 200 * n = 200 * n := by omega
    rw [e]
    exact hex

/-- C5: after a stop request with timeout T, the exit guard sends the textual
"stop" line into the input channel; it issues the forceful kill exactly when no
poll of the 200 ms cadence observes the child gone within T; and however the
child exits, the one-shot exit signal resolves to the exit status exactly once. -/
theorem stop_graceful_then_kill (T : Nat) (tExit : Option Nat) (status : Int) :
    (exitGuard (some T) tExit status).inputSends = ["stop\n"] ∧
    ((exitGuard (some T) tExit status).killed = true ↔
      ¬ ∃ n : Nat, 200 * n ≤ T ∧ childExitedAt tExit (200 * n) = true) ∧
    (exitGuard (some T) tExit status).exitSends = [status] := by
  refine ⟨rfl, ?_, rfl⟩
  have hiff := gracefulPoll_full_iff tExit T
  show (!(gracefulPoll tExit T (T / 200 + 1) 0)) = true ↔ _
  cases hb : gracefulPoll tExit T (T / 200 + 1) 0 with
  | false =>
    rw [hb] at hiff
    constructor
    · intro _ hex
      exact Bool.noConfusion (hiff.mpr hex)
    · intro _
      rfl
  | true =>
    rw [hb] at hiff
    constructor
    · intro h
      exact Bool.noConfusion h
    · intro hnex
      exact absurd (hiff.mp rfl) hnex

/-! ## TaskManager (src/core/task.rs) -/

/-- Outcome of a tracked task as seen by `JoinSet::join_next`:
`Ok(Ok(_))`, `Ok(Err(e))`, or `Err(e)` (the task panicked or was aborted). -/
inductive TaskOutcome where
  | ok
  | taskFailed (msg : String)
  | joinFailed (msg : String)
deriving DecidableEq

/-- What the coordinator logs for one completed task (task.rs lines 94-98):
nothing on success, one error line otherwise. -/
def logOf : TaskOutcome → List String
  | TaskOutcome.ok => []
  | TaskOutcome.taskFailed m => [m]
  | TaskOutcome.joinFailed m => [m]

/-- One event of the coordinator's select (task.rs lines 80-101). -/
inductive ManagerEvent where
  | cancelFired
  | submitted (id : Nat)
  | completed (id : Nat) (r : TaskOutcome)
deriving DecidableEq

/-- Coordinator state: whether the loop is still running, the JoinSet contents
(task ids), the shared cancellation token, and the emitted log. -/
structure ManagerState where
  looping : Bool
  tracked : List Nat
  tokenCancelled : Bool
  log : List String
deriving DecidableEq

/-- One iteration of `TaskManager::manager` (lines 75-103): cancellation breaks
the loop; a submitted task is registered; a completed task leaves the JoinSet
and its outcome is logged — nothing else changes. -/
def managerStep (s : ManagerState) (e : ManagerEvent) : ManagerState :=
  if s.looping then
    match e with
    | ManagerEvent.cancelFired => { s with looping := false }
    | ManagerEvent.submitted id => { s with tracked := s.tracked ++ [id] }
    | ManagerEvent.completed id r =>
      { s with tracked := s.tracked.erase id, log := s.log ++ logOf r }
  else s

/-- `TaskManager::shutdown` (lines 106-112): cancel the token; the coordinator
observes it and exits its loop. -/
def shutdownManager (s : ManagerState) : ManagerState :=
  managerStep { s with tokenCancelled := true } ManagerEvent.cancelFired

/-- C9: a task completing with an error or panic only gets logged: the
coordinator keeps looping, the cancellation token is untouched, every sibling
stays tracked; the loop exits only on the cancellation event, and shutdown()
does stop it. -/
theorem task_failure_is_isolated (s : ManagerState) (id : Nat) (r : TaskOutcome)
    (hl : s.looping = true) :
    (managerStep s (ManagerEvent.completed id r)).looping = true ∧
    (managerStep s (ManagerEvent.completed id r)).tokenCancelled = s.tokenCancelled ∧
    (managerStep s (ManagerEvent.completed id r)).log = s.log ++ logOf r ∧
    (∀ j ∈ s.tracked, j ≠ id → j ∈ (managerStep s (ManagerEvent.completed id r)).tracked) ∧
    (∀ e : ManagerEvent, (managerStep s e).looping = false → e = ManagerEvent.cancelFired) ∧
    (shutdownManager s).looping = false := by
  refine ⟨by simp [managerStep, hl], by simp [managerStep, hl],
    by simp [managerStep, hl], ?_, ?_, by simp [shutdownManager, managerStep, hl]⟩
  · intro j hj hne
    simp only [managerStep, hl, if_true]
    exact (List.mem_erase_of_ne hne).mpr hj
  · intro e he
    cases e with
    | cancelFired => rfl
    | submitted id2 =>
      rw [managerStep] at he
      simp [hl] at he
    | completed id2 r2 =>
      rw [managerStep] at he
      simp [hl] at he

/-- Witness for C9 on a concrete coordinator state with two tracked tasks. -/
theorem task_failure_is_isolated_witness :
    (managerStep ⟨true, [1, 2], false, []⟩
      (ManagerEvent.completed 1 (TaskOutcome.taskFailed "boom"))).looping = true ∧
    2 ∈ (managerStep ⟨true, [1, 2], false, []⟩
      (ManagerEvent.completed 1 (TaskOutcome.taskFailed "boom"))).tracked := by
  have h := task_failure_is_isolated ⟨true, [1, 2], false, []⟩ 1
    (TaskOutcome.taskFailed "boom") rfl
  exact ⟨h.1, h.2.2.2.1 2 (by decide) (by decide)⟩

/-! ## Hooked channel (src/core/hooks/hooked_channel.rs) -/

/-- A bounded FIFO channel with capacity `cap` and current buffer `buf`. -/
structure Channel (α : Type) where
  cap : Nat
  buf : List α

/-- tokio's TryRecvError as far as an open channel can produce it. -/
inductive ChanTryRecvError where
  | empty
  | disconnected
deriving DecidableEq

/-- Plain bounded send: enqueue when there is room, otherwise suspend (None). -/
def Channel.sendOp {α : Type} (c : Channel α) (v : α) : Option (Channel α) :=
  if c.buf.length < c.cap then some ⟨c.cap, c.buf ++ [v]⟩ else none

/-- Plain bounded try_send: enqueue when there is room, otherwise Full(v). -/
def Channel.trySendOp {α : Type} (c : Channel α) (v : α) : Except α (Channel α) :=
  if c.buf.length < c.cap then Except.ok ⟨c.cap, c.buf ++ [v]⟩ else Except.error v

/-- Plain recv: pop the front, or suspend (None) on an empty buffer. -/
def Channel.recvOp {α : Type} (c : Channel α) : Option α × Channel α :=
  match c.buf with
  | [] => (none, c)
  | x :: rest => (some x, ⟨c.cap, rest⟩)

/-- Plain try_recv: pop the front, or report Empty. -/
def Channel.tryRecvOp {α : Type} (c : Channel α) :
    Except ChanTryRecvError α × Channel α :=
  match c.buf with
  | [] => (Except.error ChanTryRecvError.empty, c)
  | x :: rest => (Except.ok x, ⟨c.cap, rest⟩)

/-- `sender_hooks` (hooked_channel.rs lines 51-54): the identity. -/
def sender_hooks {α : Type} (value : α) : α := value

/-- `receiver_hooks` (lines 55-58): the identity. -/
def receiver_hooks {α : Type} (value : α) : α := value

/-- `HookedSender::send` (lines 14-19): send `sender_hooks(value)` on the
underlying channel. -/
def hookedSend {α : Type} (c : Channel α) (v : α) : Option (Channel α) :=
  Channel.sendOp c (sender_hooks v)

/-- `HookedSender::try_send` (lines 20-25). -/
def hookedTrySend {α : Type} (c : Channel α) (v : α) : Except α (Channel α) :=
  Channel.trySendOp c (sender_hooks v)

/-- `HookedReceiver::recv` (lines 37-42): receive, then pass the result through
`receiver_hooks`. -/
def hookedRecv {α : Type} (c : Channel α) : Option α × Channel α :=
  let r := Channel.recvOp c
  (receiver_hooks r.1, r.2)

/-- `HookedReceiver::try_recv` (lines 44-49): `?` propagates the error, a value
passes through `receiver_hooks`. -/
def hookedTryRecv {α : Type} (c : Channel α) :
    Except ChanTryRecvError α × Channel α :=
  match Channel.tryRecvOp c with
  | (Except.error e, c1) => (Except.error e, c1)
  | (Except.ok v, c1) => (Except.ok (receiver_hooks v), c1)

/-- C10: the hooked channel wrapper is the plain bounded channel: with only
identity hooks, every one of the four operations returns exactly the value,
success/failure result and channel state of the unhooked operation. -/
theorem hooked_channel_is_plain (α : Type) (c : Channel α) (v : α) :
    hookedSend c v = Channel.sendOp c v ∧
    hookedTrySend c v = Channel.trySendOp c v ∧
    hookedRecv c = Channel.recvOp c ∧
    hookedTryRecv c = Channel.tryRecvOp c := by
  refine ⟨rfl, rfl, rfl, ?_⟩
  obtain ⟨cap, buf⟩ := c
  cases buf with
  | nil => rfl
  | cons x rest => rfl

end ToyMine
